import Mathlib

/-!
# Verification of the zk-mini constraint-system engine

Shallow embedding of the Rust sources (`src/field.rs` interface as documented,
`src/qap.rs`, `src/r1cs.rs`, `src/circuit.rs`, `src/proof.rs` interface as
documented) and proofs of the specification's claims about them.

Rust's `HashMap<usize, FieldElement>` is embedded as an association list
(`List (Nat × FieldElement)`): map lookup/insert/entry semantics are modelled
faithfully; the list fixes one iteration order, which Rust leaves unspecified
and which no claim observes (field addition is commutative).

Partial operations of the source (Rust slice/`Vec` indexing, which panics out
of bounds, and `expect` on I/O and deserialization) are embedded as
`Option`/`Except`: `none`/`error` is the panic.
-/

namespace ZkMini

/-- Modelled from the spec: `field.rs` is not among the provided sources.
The spec describes `FieldValue` as an arbitrary-precision integer implicitly
reduced modulo a single process-wide modulus, currently the fixed default
`1_000_000_007` (the default stored by `Circuit::new`), with add/sub/mul
closed over the field and equality of canonical representatives.  `ZMod`
of that fixed modulus is exactly this datatype. -/
def MODULUS : Nat := 1000000007

/-- Modelled from the spec: the `FieldElement` of the missing `field.rs`,
an integer reduced modulo the process-wide default modulus. -/
abbrev FieldElement : Type := ZMod MODULUS

instance : NeZero MODULUS := ⟨by decide⟩

/-- Modelled from the spec: `FieldElement::new(raw)` reduces an
arbitrary-precision integer into canonical range. -/
def FieldElement.new (raw : Int) : FieldElement := (raw : ZMod MODULUS)

/-- Modelled from the spec: `FieldElement::get_value` returns the canonical
(reduced) representative. -/
def FieldElement.get_value (x : FieldElement) : Int := (x.val : Int)

/-! ## `qap.rs` -/

/-- Rust `Polynomial` (qap.rs): coefficients keyed by variable index.
Rust uses `HashMap<usize, FieldElement>`; embedded as an association list. -/
structure Polynomial where
  coefficients : List (Nat × FieldElement)
deriving DecidableEq

namespace Polynomial

/-- Rust `Polynomial::new` (qap.rs). -/
def new : Polynomial := ⟨[]⟩

/-- Key membership in the coefficient map. -/
def hasKey (p : Polynomial) (i : Nat) : Bool :=
  (p.coefficients.lookup i).isSome

/-- The stored coefficient at an index (zero when absent); observation
helper for stating claims, not a source function. -/
def coeff (p : Polynomial) (i : Nat) : FieldElement :=
  (p.coefficients.lookup i).getD 0

/-- Rust `HashMap::insert`: replace the value at the key if present, else add
the binding. -/
def mapInsert (m : List (Nat × FieldElement)) (i : Nat) (c : FieldElement) :
    List (Nat × FieldElement) :=
  if (m.lookup i).isSome then
    m.map (fun e => if e.1 = i then (e.1, c) else e)
  else
    m ++ [(i, c)]

/-- Rust `HashMap::entry(i).or_insert(0) += c`: add `c` into the existing value
at `i`, first creating a zero-initialized entry if absent. -/
def mapAccum (m : List (Nat × FieldElement)) (i : Nat) (c : FieldElement) :
    List (Nat × FieldElement) :=
  if (m.lookup i).isSome then
    m.map (fun e => if e.1 = i then (e.1, e.2 + c) else e)
  else
    m ++ [(i, 0 + c)]

/-- Rust `Polynomial::add_term` (qap.rs line 62): `self.coefficients.insert(index, coefficient)`. -/
def add_term (p : Polynomial) (index : Nat) (coefficient : FieldElement) : Polynomial :=
  ⟨mapInsert p.coefficients index coefficient⟩

/-- One accumulation step of `QAP::add_constraint`:
`*self.coefficients.entry(index).or_insert(0) += coeff`. -/
def accumTerm (p : Polynomial) (index : Nat) (coefficient : FieldElement) : Polynomial :=
  ⟨mapAccum p.coefficients index coefficient⟩

/-- The `for (index, coeff) in coeffs` accumulation loop of `QAP::add_constraint`. -/
def accumAll (p : Polynomial) (coeffs : List (Nat × FieldElement)) : Polynomial :=
  coeffs.foldl (fun q t => q.accumTerm t.1 t.2) p

/-- Rust `Polynomial::evaluate` (qap.rs lines 65-71): sums `coeff * assignment[index]`
over every stored entry; Rust's `assignment[*index]` panics when the index is
out of range, embedded as `none`. -/
def evaluate (p : Polynomial) (assignment : List FieldElement) : Option FieldElement :=
  p.coefficients.foldlM
    (fun result t => (assignment.get? t.1).map (fun v => result + t.2 * v)) 0

end Polynomial

/-- Rust `QAP` (qap.rs): left/right/output coefficient accumulators. -/
structure QAP where
  left : Polynomial
  right : Polynomial
  output : Polynomial
deriving DecidableEq

namespace QAP

/-- Rust `QAP::new` (qap.rs). -/
def new : QAP := ⟨Polynomial.new, Polynomial.new, Polynomial.new⟩

/-- Rust `QAP::add_constraint` (qap.rs lines 34-44): accumulates each coefficient
list into the matching accumulator; the modulus argument is unused (`_modulus`). -/
def add_constraint (q : QAP) (left_coeffs right_coeffs output_coeffs : List (Nat × FieldElement))
    (_modulus : Int) : QAP :=
  { left := q.left.accumAll left_coeffs
    right := q.right.accumAll right_coeffs
    output := q.output.accumAll output_coeffs }

/-- Rust `QAP::evaluate` (qap.rs lines 46-53): `left * right - output` over the
three polynomial evaluations; any out-of-range index panics (`none`). -/
def evaluate (q : QAP) (assignment : List FieldElement) : Option FieldElement := do
  let left_eval ← q.left.evaluate assignment
  let right_eval ← q.right.evaluate assignment
  let output_eval ← q.output.evaluate assignment
  pure (left_eval * right_eval - output_eval)

end QAP

/-! ## `r1cs.rs` -/

/-- Rust `Variable` (r1cs.rs). -/
structure Variable where
  index : Nat
  value : FieldElement
deriving DecidableEq

/-- Rust `Operation` (r1cs.rs). -/
inductive Operation where
  | Add
  | Mul
  | Hash
deriving DecidableEq

/-- Rust `Constraint` (r1cs.rs): three term lists pairing a `Variable` with a
`BigInt` coefficient, plus the operation tag. -/
structure Constraint where
  left : List (Variable × Int)
  right : List (Variable × Int)
  output : List (Variable × Int)
  operation : Operation
deriving DecidableEq

/-- Rust `R1CS` (r1cs.rs). -/
structure R1CS where
  «variables» : List Variable
  constraints : List Constraint
  qap : QAP
deriving DecidableEq

namespace R1CS

/-- Rust `R1CS::new` (r1cs.rs lines 39-45). -/
def new : R1CS := ⟨[], [], QAP.new⟩

/-- Rust `R1CS::add_constraint` (r1cs.rs lines 48-50): forwards to
`QAP::add_constraint` only; `self.constraints` is not touched. -/
def add_constraint (r : R1CS) (left_coeffs right_coeffs output_coeffs : List (Nat × FieldElement))
    (modulus : Int) : R1CS :=
  { r with qap := r.qap.add_constraint left_coeffs right_coeffs output_coeffs modulus }

/-- Rust `R1CS::add_variable` (r1cs.rs lines 74-78): appends and returns the index. -/
def add_variable (r : R1CS) (value : FieldElement) : R1CS × Nat :=
  let index := r.«variables».length
  ({ r with «variables» := r.«variables» ++ [⟨index, value⟩] }, index)

/-- Rust `R1CS::generate_witness` (r1cs.rs lines 53-58). -/
def generate_witness (r : R1CS) : List FieldElement :=
  r.«variables».map (·.value)

/-- One side's evaluation loop inside `verify_witness` (r1cs.rs lines 100-116):
`eval = eval + witness[var.index] * coeff`, panicking (`none`) when
`var.index` is out of the witness's range. -/
def evalSide (terms : List (Variable × Int)) (witness : List FieldElement) :
    Option FieldElement :=
  terms.foldlM
    (fun eval t => (witness.get? t.1.index).map (fun v => eval + v * (t.2 : FieldElement))) 0

/-- The constraint loop of `verify_witness` (r1cs.rs lines 95-122). -/
def verifyLoop (cs : List Constraint) (witness : List FieldElement) : Option Bool :=
  match cs with
  | [] => some true
  | c :: rest => do
    let left_eval ← evalSide c.left witness
    let right_eval ← evalSide c.right witness
    let output_eval ← evalSide c.output witness
    if left_eval ≠ right_eval ∨ right_eval ≠ output_eval then
      pure false
    else
      verifyLoop rest witness

/-- Rust `R1CS::verify_witness` (r1cs.rs lines 94-124): early-returns `false` on the
first constraint whose three evaluations are not all equal, `true` when every
constraint passed; an out-of-range variable index panics (`none`). -/
def verify_witness (r : R1CS) (witness : List FieldElement) : Option Bool :=
  verifyLoop r.constraints witness

end R1CS

/-! ## Persistence: binary encoding (bincode) and the file system

`save_to_binary`/`load_from_binary` delegate to the external `bincode` crate
over the `serde` derives on `Variable`, `Operation`, `Constraint`,
`Polynomial`, `QAP` and `R1CS`.  The crate is outside this repository; its
contract (a self-inverse, field-order-preserving binary codec for the derived
structures) is embedded here as an explicit prefix codec over `List Nat`:
every struct field is written in declaration order, sequences are
length-prefixed, enums are tag-prefixed, and `BigInt` is sign-magnitude. -/

/-- A file system: filenames mapped to byte streams; `fsWrite` models
`File::create` + `write_all` (truncating overwrite), `fsRead` models
`std::fs::read`/`File::open` (`none` = the file does not exist). -/
def FS : Type := List (String × List Nat)

/-- The fixed constraint-system path hard-coded by `Circuit::generate_proof`
and `Circuit::verify_proof`. -/
def r1csFilePath : String := "r1cs_file.bin"

/-- The proof path the addition demonstration passes to `generate_proof`. -/
def additionProofPath : String := "addition_proof.bin"

/-- An arbitrary path never written in the scenarios below. -/
def unusedProofPath : String := "proof.bin"


def fsWrite (fs : FS) (filename : String) (bytes : List Nat) : FS :=
  (filename, bytes) :: fs

def fsRead (fs : FS) (filename : String) : Option (List Nat) :=
  List.lookup filename fs

namespace Bin

def encNat (n : Nat) : List Nat := [n]

def decNat : List Nat → Option (Nat × List Nat)
  | [] => none
  | n :: rest => some (n, rest)

def encInt (i : Int) : List Nat := if i < 0 then [1, i.natAbs] else [0, i.natAbs]

def decInt (l : List Nat) : Option (Int × List Nat) := do
  let (s, r) ← decNat l
  let (m, r2) ← decNat r
  if s = 0 then pure ((m : Int), r2)
  else if s = 1 then pure (-(m : Int), r2)
  else none

def encField (x : FieldElement) : List Nat := [x.val]

def decField : List Nat → Option (FieldElement × List Nat)
  | [] => none
  | n :: rest => some ((n : FieldElement), rest)

/-- Length-prefixed sequence encoding (`Vec`/`HashMap` serialization). -/
def encSeq (enc : α → List Nat) (xs : List α) : List Nat :=
  xs.length :: (xs.map enc).flatten

def decSeqN (dec : List Nat → Option (α × List Nat)) :
    Nat → List Nat → Option (List α × List Nat)
  | 0, l => some ([], l)
  | n + 1, l => do
    let (x, r) ← dec l
    let (xs, r2) ← decSeqN dec n r
    pure (x :: xs, r2)

def decSeq (dec : List Nat → Option (α × List Nat)) (l : List Nat) :
    Option (List α × List Nat) := do
  let (n, r) ← decNat l
  decSeqN dec n r

def encVariable (v : Variable) : List Nat := encNat v.index ++ encField v.value

def decVariable (l : List Nat) : Option (Variable × List Nat) := do
  let (i, r) ← decNat l
  let (x, r2) ← decField r
  pure (⟨i, x⟩, r2)

def encTerm (t : Variable × Int) : List Nat := encVariable t.1 ++ encInt t.2

def decTerm (l : List Nat) : Option ((Variable × Int) × List Nat) := do
  let (v, r) ← decVariable l
  let (c, r2) ← decInt r
  pure ((v, c), r2)

def encOperation : Operation → List Nat
  | .Add => [0]
  | .Mul => [1]
  | .Hash => [2]

def decOperation : List Nat → Option (Operation × List Nat)
  | 0 :: rest => some (.Add, rest)
  | 1 :: rest => some (.Mul, rest)
  | 2 :: rest => some (.Hash, rest)
  | _ => none

def encConstraint (c : Constraint) : List Nat :=
  encSeq encTerm c.left ++ encSeq encTerm c.right ++ encSeq encTerm c.output ++
    encOperation c.operation

def decConstraint (l : List Nat) : Option (Constraint × List Nat) := do
  let (le, r) ← decSeq decTerm l
  let (ri, r2) ← decSeq decTerm r
  let (ou, r3) ← decSeq decTerm r2
  let (op, r4) ← decOperation r3
  pure (⟨le, ri, ou, op⟩, r4)

def encEntry (t : Nat × FieldElement) : List Nat := encNat t.1 ++ encField t.2

def decEntry (l : List Nat) : Option ((Nat × FieldElement) × List Nat) := do
  let (i, r) ← decNat l
  let (x, r2) ← decField r
  pure ((i, x), r2)

def encPolynomial (p : Polynomial) : List Nat := encSeq encEntry p.coefficients

def decPolynomial (l : List Nat) : Option (Polynomial × List Nat) := do
  let (cs, r) ← decSeq decEntry l
  pure (⟨cs⟩, r)

def encQAP (q : QAP) : List Nat :=
  encPolynomial q.left ++ encPolynomial q.right ++ encPolynomial q.output

def decQAP (l : List Nat) : Option (QAP × List Nat) := do
  let (le, r) ← decPolynomial l
  let (ri, r2) ← decPolynomial r
  let (ou, r3) ← decPolynomial r2
  pure (⟨le, ri, ou⟩, r3)

def encR1CS (x : R1CS) : List Nat :=
  encSeq encVariable x.«variables» ++ encSeq encConstraint x.constraints ++ encQAP x.qap

def decR1CS (l : List Nat) : Option (R1CS × List Nat) := do
  let (vs, r) ← decSeq decVariable l
  let (cs, r2) ← decSeq decConstraint r
  let (q, r3) ← decQAP r2
  pure (⟨vs, cs, q⟩, r3)

end Bin

/-- Rust `R1CS::save_to_binary` (r1cs.rs lines 81-85): serialize and write the file. -/
def R1CS.save_to_binary (r : R1CS) (fs : FS) (filename : String) : FS :=
  fsWrite fs filename (Bin.encR1CS r)

/-- Rust `R1CS::load_from_binary` (r1cs.rs lines 88-92): open the file and
deserialize; a missing file or malformed bytes panic (`none`). -/
def R1CS.load_from_binary (fs : FS) (filename : String) : Option R1CS := do
  let bytes ← fsRead fs filename
  let (r, _) ← Bin.decR1CS bytes
  pure r

/-! ## `proof.rs` (interface only) -/

/-- Modelled from the spec: `proof.rs` is not among the provided sources.
The spec's `ProofArtifact` is `{ witness: ordered sequence of FieldValue }`,
and `circuit.rs` reads `proof.witness` back as raw big integers
(`FieldElement::new(value.clone())` over each entry). -/
structure Proof where
  witness : List Int
deriving DecidableEq

/-- Modelled from the spec: `Proof::generate_proof(r1cs, witness)` wraps the
witness values in a `ProofArtifact`. -/
def Proof.generate_proof (_r : R1CS) (witness : List FieldElement) : Proof :=
  ⟨witness.map (·.get_value)⟩

def Bin.encProof (p : Proof) : List Nat := Bin.encSeq Bin.encInt p.witness

def Bin.decProof (l : List Nat) : Option (Proof × List Nat) := do
  let (w, r) ← Bin.decSeq Bin.decInt l
  pure (⟨w⟩, r)

/-- Modelled from the spec: `Proof::save_to_binary(path)` persists the
artifact's serialized form at the caller-supplied path. -/
def Proof.save_to_binary (p : Proof) (fs : FS) (filename : String) : FS :=
  fsWrite fs filename (Bin.encProof p)

/-! ## `circuit.rs` -/

/-- Rust `Gate` (circuit.rs): input1, input2, output — positions into the
circuit's input slots. -/
inductive Gate where
  | Add (input1 input2 output : Nat)
  | Mul (input1 input2 output : Nat)
deriving DecidableEq

/-- Rust `Circuit` (circuit.rs). -/
structure Circuit where
  inputs : List FieldElement
  gates : List Gate
  outputs : List FieldElement
  modulus : Int
deriving DecidableEq

/-- The failure modes of `Circuit::generate_proof` (both are Rust panics):
the explicit empty-inputs `panic!` and the out-of-bounds
`r1cs.variables[i]` indexing panic while lowering a gate. -/
inductive CircuitError where
  | emptyCircuit
  | invalidIndex
deriving DecidableEq

namespace Circuit

/-- Rust `Circuit::new` (circuit.rs lines 19-27): default modulus `1_000_000_007`. -/
def new : Circuit := ⟨[], [], [], 1000000007⟩

/-- Rust `Circuit::add_input` (circuit.rs lines 29-33). -/
def add_input (c : Circuit) (value : FieldElement) : Circuit × Nat :=
  ({ c with inputs := c.inputs ++ [value] }, c.inputs.length)

/-- Rust `Circuit::add_gate` (circuit.rs lines 35-37). -/
def add_gate (c : Circuit) (gate : Gate) : Circuit :=
  { c with gates := c.gates ++ [gate] }

/-- Rust `Circuit::set_output` (circuit.rs lines 39-41). -/
def set_output (c : Circuit) (value : FieldElement) : Circuit :=
  { c with outputs := c.outputs ++ [value] }

/-- Rust `Circuit::get_input` (circuit.rs lines 44-46). -/
def get_input (c : Circuit) (index : Nat) : Option FieldElement :=
  c.inputs.get? index

/-- The `r1cs.variables[i]` access inside gate lowering: a Rust index
panic on an out-of-range position, embedded as `invalidIndex`. -/
def getVar (r : R1CS) (i : Nat) : Except CircuitError Variable :=
  (r.«variables».get? i).elim (.error .invalidIndex) .ok

/-- Lowering of one gate inside `generate_proof` (circuit.rs lines 63-94):
both `Add` and `Mul` arms call `add_constraint` with the three
single-variable, coefficient-one term lists `[(variables[a].index, 1)]`,
`[(variables[b].index, 1)]`, `[(variables[out].index, 1)]`; indexing
`r1cs.variables[i]` panics when `i` is out of range. -/
def lowerGate (modulus : Int) (r : R1CS) : Gate → Except CircuitError R1CS
  | .Add a b output => do
    let va ← getVar r a
    let vb ← getVar r b
    let vo ← getVar r output
    pure (r.add_constraint [(va.index, FieldElement.new 1)] [(vb.index, FieldElement.new 1)]
      [(vo.index, FieldElement.new 1)] modulus)
  | .Mul a b output => do
    let va ← getVar r a
    let vb ← getVar r b
    let vo ← getVar r output
    pure (r.add_constraint [(va.index, FieldElement.new 1)] [(vb.index, FieldElement.new 1)]
      [(vo.index, FieldElement.new 1)] modulus)

/-- The constraint-system construction phase of `generate_proof`
(circuit.rs lines 49-94): the empty-inputs check, one `add_variable` per
input in order, then one `add_constraint` per gate in order. -/
def lower (c : Circuit) : Except CircuitError R1CS :=
  if c.inputs = [] then .error .emptyCircuit
  else
    let r0 := c.inputs.foldl (fun r v => (R1CS.add_variable r v).1) R1CS.new
    c.gates.foldlM (lowerGate c.modulus) r0

/-- Rust `Circuit::generate_proof` (circuit.rs lines 49-105): builds the R1CS,
saves it at the fixed path `r1cs_file.bin`, derives the witness, wraps it
into a `Proof` and saves that at `proof_file`.  The returned file system
holds both artifacts; an error is a panic before any write. -/
def generate_proof (c : Circuit) (proof_file : String) (fs : FS) :
    Except CircuitError FS := do
  let r1cs ← c.lower
  let fs1 := r1cs.save_to_binary fs r1csFilePath
  let witness := r1cs.generate_witness
  let proof := Proof.generate_proof r1cs witness
  pure (proof.save_to_binary fs1 proof_file)

/-- Rust `Circuit::verify_proof` (circuit.rs lines 108-124): read and deserialize
the proof file, rebuild the witness via `FieldElement::new`, load the
constraint system from its fixed path, and return `verify_witness`; every
missing-file or deserialization failure panics (`none`). -/
def verify_proof (_c : Circuit) (proof_file : String) (fs : FS) : Option Bool := do
  let proof_data ← fsRead fs proof_file
  let (proof, _) ← Bin.decProof proof_data
  let witness := proof.witness.map FieldElement.new
  let r1cs ← R1CS.load_from_binary fs r1csFilePath
  r1cs.verify_witness witness

end Circuit

/-! ## Observation predicates and builder traces -/

/-- All variable indices referenced by a constraint are within the witness. -/
def R1CS.sidesInRange (c : Constraint) (w : List FieldElement) : Prop :=
  (∀ t ∈ c.left, t.1.index < w.length) ∧ (∀ t ∈ c.right, t.1.index < w.length) ∧
    (∀ t ∈ c.output, t.1.index < w.length)

instance (c : Constraint) (w : List FieldElement) : Decidable (R1CS.sidesInRange c w) := by
  unfold R1CS.sidesInRange
  infer_instance

/-- The Boolean check `verify_witness` applies to one constraint:
the three evaluations are equal (left = right and right = output). -/
def R1CS.constraintCheck (c : Constraint) (w : List FieldElement) : Bool :=
  decide (R1CS.evalSide c.left w = R1CS.evalSide c.right w ∧
    R1CS.evalSide c.right w = R1CS.evalSide c.output w)

/-- One construction step available on an `R1CS`: the operations
`Circuit::generate_proof` uses after `R1CS::new`. -/
inductive BuildOp where
  | addVar (value : FieldElement)
  | addCons (left right output : List (Nat × FieldElement)) (modulus : Int)

/-- Replay a sequence of `add_variable`/`add_constraint` calls on `R1CS::new`. -/
def buildR1CS (ops : List BuildOp) : R1CS :=
  ops.foldl
    (fun r op =>
      match op with
      | .addVar v => (r.add_variable v).1
      | .addCons l ri o m => r.add_constraint l ri o m)
    R1CS.new

/-! ## Concrete instances used to witness the hypothesised theorems -/

/-- A three-variable constraint system whose single constraint has the shape
`generate_proof` was meant to store: single-variable, coefficient-one sides. -/
def exampleR1CS : R1CS :=
  ⟨[⟨0, 5⟩, ⟨1, 5⟩, ⟨2, 5⟩],
   [⟨[(⟨0, 5⟩, 1)], [(⟨1, 5⟩, 1)], [(⟨2, 5⟩, 1)], .Add⟩],
   QAP.new⟩

/-- A witness making all three sides of `exampleR1CS`'s constraint equal. -/
def exampleWitness : List FieldElement := [5, 5, 5]

/-- A QAP referencing indices 0 and 1. -/
def exampleQAP : QAP := ⟨⟨[(0, 2)]⟩, ⟨[(1, 3)]⟩, ⟨[(0, 6)]⟩⟩

/-- An assignment covering indices 0 and 1. -/
def exampleAssignment : List FieldElement := [1, 2]

/-- A polynomial referencing index 5, beyond `exampleAssignment`'s range. -/
def outOfRangePolynomial : Polynomial := ⟨[(5, 4)]⟩

/-! ## Fixed demonstration circuits (main.rs)

`additionCircuit` replays `addition_proof()` from main.rs: inputs 10 and 20,
their precomputed sum 30 as a third input, one `Add` gate. -/

def additionCircuit : Circuit :=
  let c0 := Circuit.new
  let s1 := c0.add_input (FieldElement.new 10)
  let s2 := s1.1.add_input (FieldElement.new 20)
  let s3 := s2.1.add_input (FieldElement.new 30)
  (s3.1.add_gate (.Add s1.2 s2.2 s3.2)).set_output (FieldElement.new 30)

/-- Scenario C's corrupted proof artifact: the single witness entry for the
sum altered from 30 to 31. -/
def tamperedProof : Proof := ⟨[10, 20, 31]⟩

/-! ## Helper lemmas: association-list maps -/

namespace Polynomial

theorem lookup_map_update (m : List (Nat × FieldElement)) (i : Nat)
    (f : FieldElement → FieldElement) :
    (m.map (fun e => if e.1 = i then (e.1, f e.2) else e)).lookup i = (m.lookup i).map f := by
  induction m with
  | nil => rfl
  | cons hd tl ih =>
    obtain ⟨a, b⟩ := hd
    rw [List.map_cons]
    show List.lookup i ((if a = i then (a, f b) else (a, b)) ::
        List.map (fun e => if e.1 = i then (e.1, f e.2) else e) tl)
      = Option.map f (List.lookup i ((a, b) :: tl))
    by_cases h : a = i
    · subst h
      rw [if_pos rfl]
      simp [List.lookup]
    · have hne : (i == a) = false := beq_false_of_ne (Ne.symm h)
      rw [if_neg h]
      simp only [List.lookup, hne, ih]

theorem lookup_append_single (m : List (Nat × FieldElement)) (i : Nat) (c : FieldElement)
    (h : m.lookup i = none) : (m ++ [(i, c)]).lookup i = some c := by
  induction m with
  | nil => simp [List.lookup]
  | cons hd tl ih =>
    simp only [List.lookup, List.cons_append] at h ⊢
    cases hbe : (i == hd.1) with
    | true => simp [hbe] at h
    | false => simp only [hbe] at h ⊢; exact ih h

theorem lookup_mapInsert (m : List (Nat × FieldElement)) (i : Nat) (c : FieldElement) :
    (mapInsert m i c).lookup i = some c := by
  unfold mapInsert
  by_cases h : (m.lookup i).isSome
  · rw [if_pos h]
    obtain ⟨v, hv⟩ := Option.isSome_iff_exists.mp h
    have h2 := lookup_map_update m i (fun _ => c)
    rw [hv] at h2
    exact h2
  · rw [if_neg h]
    exact lookup_append_single m i c (Option.not_isSome_iff_eq_none.mp h)

theorem lookup_mapAccum (m : List (Nat × FieldElement)) (i : Nat) (c : FieldElement) :
    (mapAccum m i c).lookup i = some ((m.lookup i).getD 0 + c) := by
  unfold mapAccum
  by_cases h : (m.lookup i).isSome
  · rw [if_pos h]
    obtain ⟨v, hv⟩ := Option.isSome_iff_exists.mp h
    have h2 := lookup_map_update m i (fun x => x + c)
    rw [hv] at h2
    rw [hv]
    exact h2
  · rw [if_neg h]
    have hn := Option.not_isSome_iff_eq_none.mp h
    rw [hn]
    have h2 := lookup_append_single m i (0 + c) hn
    rw [h2]
    simp

theorem coeff_add_term (p : Polynomial) (i : Nat) (c : FieldElement) :
    (p.add_term i c).coeff i = c := by
  unfold coeff add_term
  rw [lookup_mapInsert]
  rfl

theorem coeff_accumTerm (p : Polynomial) (i : Nat) (c : FieldElement) :
    (p.accumTerm i c).coeff i = p.coeff i + c := by
  unfold coeff accumTerm
  rw [lookup_mapAccum]
  rfl

end Polynomial

/-! ## Helper lemmas: linear-combination evaluation -/

namespace Polynomial

theorem evaluate_foldlM_none_iff (a : List FieldElement) (l : List (Nat × FieldElement)) :
    ∀ acc : FieldElement,
      (l.foldlM (fun result t => (a.get? t.1).map (fun v => result + t.2 * v)) acc = none)
        ↔ ∃ t ∈ l, a.length ≤ t.1 := by
  induction l with
  | nil => intro acc; simp [List.foldlM]
  | cons hd tl ih =>
    intro acc
    cases hget : a.get? hd.1 with
    | none =>
      have hlen : a.length ≤ hd.1 := List.get?_eq_none.mp hget
      simp only [List.foldlM_cons, hget, Option.map_none', Option.bind_eq_bind,
        Option.none_bind]
      exact iff_of_true (by trivial) ⟨hd, List.mem_cons_self hd tl, hlen⟩
    | some v =>
      have hlt : hd.1 < a.length := by
        by_contra hc
        rw [List.get?_eq_none.mpr (by omega)] at hget
        exact Option.noConfusion hget
      simp only [List.foldlM_cons, hget, Option.map_some', Option.bind_eq_bind,
        Option.some_bind]
      rw [ih]
      constructor
      · rintro ⟨t, ht, hle⟩; exact ⟨t, List.mem_cons_of_mem _ ht, hle⟩
      · rintro ⟨t, ht, hle⟩
        rcases List.mem_cons.mp ht with heq | hmem
        · subst heq; omega
        · exact ⟨t, hmem, hle⟩

theorem evaluate_foldlM_some (a : List FieldElement) (l : List (Nat × FieldElement))
    (h : ∀ t ∈ l, t.1 < a.length) :
    ∀ acc : FieldElement,
      l.foldlM (fun result t => (a.get? t.1).map (fun v => result + t.2 * v)) acc
        = some (acc + (l.map (fun t => t.2 * a.getD t.1 0)).sum) := by
  induction l with
  | nil => intro acc; simp [List.foldlM]
  | cons hd tl ih =>
    intro acc
    have hlt : hd.1 < a.length := h hd (List.mem_cons_self hd tl)
    have hget : a.get? hd.1 = some (a.get ⟨hd.1, hlt⟩) := List.get?_eq_get hlt
    have hgd : a.getD hd.1 0 = a.get ⟨hd.1, hlt⟩ := by
      rw [List.getD_eq_get? a hd.1 0, hget]; rfl
    simp only [List.foldlM_cons, hget, Option.map_some', Option.bind_eq_bind,
      Option.some_bind]
    rw [ih (fun t ht => h t (List.mem_cons_of_mem _ ht))]
    simp only [List.map_cons, List.sum_cons, hgd]
    rw [add_assoc]

theorem evaluate_none_iff (p : Polynomial) (a : List FieldElement) :
    p.evaluate a = none ↔ ∃ t ∈ p.coefficients, a.length ≤ t.1 :=
  evaluate_foldlM_none_iff a p.coefficients 0

theorem evaluate_eq_sum (p : Polynomial) (a : List FieldElement)
    (h : ∀ t ∈ p.coefficients, t.1 < a.length) :
    p.evaluate a = some ((p.coefficients.map (fun t => t.2 * a.getD t.1 0)).sum) := by
  have := evaluate_foldlM_some a p.coefficients h 0
  rw [zero_add] at this
  exact this

theorem evaluate_isSome (p : Polynomial) (a : List FieldElement)
    (h : ∀ t ∈ p.coefficients, t.1 < a.length) :
    ∃ x, p.evaluate a = some x :=
  ⟨_, evaluate_eq_sum p a h⟩

end Polynomial

namespace R1CS

theorem evalSide_foldlM_some (w : List FieldElement) (l : List (Variable × Int))
    (h : ∀ t ∈ l, t.1.index < w.length) :
    ∀ acc : FieldElement,
      l.foldlM (fun eval t => (w.get? t.1.index).map (fun v => eval + v * (t.2 : FieldElement))) acc
        = some (acc + (l.map (fun t => w.getD t.1.index 0 * (t.2 : FieldElement))).sum) := by
  induction l with
  | nil => intro acc; simp [List.foldlM]
  | cons hd tl ih =>
    intro acc
    have hlt : hd.1.index < w.length := h hd (List.mem_cons_self hd tl)
    have hget : w.get? hd.1.index = some (w.get ⟨hd.1.index, hlt⟩) := List.get?_eq_get hlt
    have hgd : w.getD hd.1.index 0 = w.get ⟨hd.1.index, hlt⟩ := by
      rw [List.getD_eq_get? w hd.1.index 0, hget]; rfl
    simp only [List.foldlM_cons, hget, Option.map_some', Option.bind_eq_bind,
      Option.some_bind]
    rw [ih (fun t ht => h t (List.mem_cons_of_mem _ ht))]
    simp only [List.map_cons, List.sum_cons, hgd]
    rw [add_assoc]

theorem evalSide_eq_sum (terms : List (Variable × Int)) (w : List FieldElement)
    (h : ∀ t ∈ terms, t.1.index < w.length) :
    evalSide terms w
      = some ((terms.map (fun t => w.getD t.1.index 0 * (t.2 : FieldElement))).sum) := by
  have := evalSide_foldlM_some w terms h 0
  rw [zero_add] at this
  exact this

theorem evalSide_isSome (terms : List (Variable × Int)) (w : List FieldElement)
    (h : ∀ t ∈ terms, t.1.index < w.length) :
    ∃ x, evalSide terms w = some x :=
  ⟨_, evalSide_eq_sum terms w h⟩

theorem verifyLoop_eq_all (w : List FieldElement) :
    ∀ cs : List Constraint, (∀ c ∈ cs, sidesInRange c w) →
      verifyLoop cs w = some (cs.all (fun c => constraintCheck c w)) := by
  intro cs
  induction cs with
  | nil => intro _; rfl
  | cons c rest ih =>
    intro h
    obtain ⟨hl, hr, ho⟩ := h c (List.mem_cons_self c rest)
    obtain ⟨lv, hlv⟩ := evalSide_isSome c.left w hl
    obtain ⟨rv, hrv⟩ := evalSide_isSome c.right w hr
    obtain ⟨ov, hov⟩ := evalSide_isSome c.output w ho
    have hrest : verifyLoop rest w = some (rest.all (fun c => constraintCheck c w)) :=
      ih (fun c hc => h c (List.mem_cons_of_mem _ hc))
    simp only [verifyLoop, hlv, hrv, hov, Option.bind_eq_bind, Option.some_bind,
      List.all_cons]
    by_cases hc : lv = rv ∧ rv = ov
    · have hcheck : constraintCheck c w = true := by
        unfold constraintCheck
        rw [hlv, hrv, hov]
        simp [hc.1, hc.2]
      rw [if_neg (by push_neg; exact ⟨hc.1, hc.2⟩), hrest, hcheck]
      simp
    · have hcheck : constraintCheck c w = false := by
        unfold constraintCheck
        rw [hlv, hrv, hov]
        simp only [decide_eq_false_iff_not]
        intro hcon
        exact hc ⟨Option.some_inj.mp hcon.1, Option.some_inj.mp hcon.2⟩
      rw [if_pos, hcheck]
      · simp
      · by_contra hcon
        push_neg at hcon
        exact hc ⟨hcon.1, hcon.2⟩

end R1CS

/-! ## Helper lemmas: the binary codec is a prefix-respecting inverse pair -/

namespace Bin

theorem decNat_enc (n : Nat) (r : List Nat) : decNat (encNat n ++ r) = some (n, r) := rfl

theorem decInt_enc (i : Int) (r : List Nat) : decInt (encInt i ++ r) = some (i, r) := by
  unfold encInt decInt
  by_cases h : i < 0
  · rw [if_pos h]
    have hi : -(i.natAbs : Int) = i := by omega
    simp [decNat, hi]
    rw [abs_of_neg h, neg_neg]
  · rw [if_neg h]
    have hi : (i.natAbs : Int) = i := by omega
    simp [decNat, hi]

theorem decField_enc (x : FieldElement) (r : List Nat) :
    decField (encField x ++ r) = some (x, r) := by
  show (some ((x.val : FieldElement), r) : Option (FieldElement × List Nat)) = some (x, r)
  rw [ZMod.natCast_rightInverse x]

theorem decSeqN_enc {α : Type} (enc : α → List Nat)
    (dec : List Nat → Option (α × List Nat))
    (hdec : ∀ x r, dec (enc x ++ r) = some (x, r)) :
    ∀ (xs : List α) (r : List Nat),
      decSeqN dec xs.length ((xs.map enc).flatten ++ r) = some (xs, r) := by
  intro xs
  induction xs with
  | nil => intro r; simp [decSeqN]
  | cons hd tl ih =>
    intro r
    simp only [List.map_cons, List.flatten_cons, List.length_cons, List.append_assoc]
    simp only [decSeqN, hdec, Option.bind_eq_bind, Option.some_bind, ih]
    rfl

theorem decSeq_enc {α : Type} (enc : α → List Nat)
    (dec : List Nat → Option (α × List Nat))
    (hdec : ∀ x r, dec (enc x ++ r) = some (x, r)) (xs : List α) (r : List Nat) :
    decSeq dec (encSeq enc xs ++ r) = some (xs, r) := by
  unfold encSeq decSeq
  simp only [List.cons_append, decNat, Option.bind_eq_bind, Option.some_bind]
  exact decSeqN_enc enc dec hdec xs r

theorem decVariable_enc (v : Variable) (r : List Nat) :
    decVariable (encVariable v ++ r) = some (v, r) := by
  unfold encVariable decVariable
  rw [List.append_assoc]
  simp only [decNat_enc, Option.bind_eq_bind, Option.some_bind, decField_enc]
  rfl

theorem decTerm_enc (t : Variable × Int) (r : List Nat) :
    decTerm (encTerm t ++ r) = some (t, r) := by
  unfold encTerm decTerm
  rw [List.append_assoc]
  simp only [decVariable_enc, Option.bind_eq_bind, Option.some_bind, decInt_enc]
  rfl

theorem decOperation_enc (op : Operation) (r : List Nat) :
    decOperation (encOperation op ++ r) = some (op, r) := by
  cases op <;> rfl

theorem decConstraint_enc (c : Constraint) (r : List Nat) :
    decConstraint (encConstraint c ++ r) = some (c, r) := by
  unfold encConstraint decConstraint
  rw [List.append_assoc, List.append_assoc, List.append_assoc]
  simp only [decSeq_enc encTerm decTerm decTerm_enc, Option.bind_eq_bind,
    Option.some_bind, decOperation_enc]
  rfl

theorem decEntry_enc (t : Nat × FieldElement) (r : List Nat) :
    decEntry (encEntry t ++ r) = some (t, r) := by
  unfold encEntry decEntry
  rw [List.append_assoc]
  simp only [decNat_enc, Option.bind_eq_bind, Option.some_bind, decField_enc]
  rfl

theorem decPolynomial_enc (p : Polynomial) (r : List Nat) :
    decPolynomial (encPolynomial p ++ r) = some (p, r) := by
  unfold encPolynomial decPolynomial
  simp only [decSeq_enc encEntry decEntry decEntry_enc, Option.bind_eq_bind,
    Option.some_bind]
  rfl

theorem decQAP_enc (q : QAP) (r : List Nat) :
    decQAP (encQAP q ++ r) = some (q, r) := by
  unfold encQAP decQAP
  rw [List.append_assoc, List.append_assoc]
  simp only [decPolynomial_enc, Option.bind_eq_bind, Option.some_bind]
  rfl

theorem decR1CS_enc (x : R1CS) (r : List Nat) :
    decR1CS (encR1CS x ++ r) = some (x, r) := by
  unfold encR1CS decR1CS
  rw [List.append_assoc, List.append_assoc]
  simp only [decSeq_enc encVariable decVariable decVariable_enc,
    decSeq_enc encConstraint decConstraint decConstraint_enc,
    Option.bind_eq_bind, Option.some_bind, decQAP_enc]
  rfl

theorem decProof_enc (p : Proof) (r : List Nat) :
    decProof (encProof p ++ r) = some (p, r) := by
  unfold encProof decProof
  simp only [decSeq_enc encInt decInt decInt_enc, Option.bind_eq_bind, Option.some_bind]
  rfl

end Bin

theorem fsRead_fsWrite (fs : FS) (filename : String) (bytes : List Nat) :
    fsRead (fsWrite fs filename bytes) filename = some bytes := by
  unfold fsRead fsWrite
  simp [List.lookup]

/-! ## Builder traces: constraint systems built the way `generate_proof` builds them -/

theorem buildR1CS_constraints_eq (ops : List BuildOp) :
    ∀ r : R1CS, (ops.foldl
      (fun r op =>
        match op with
        | .addVar v => (r.add_variable v).1
        | .addCons l ri o m => r.add_constraint l ri o m)
      r).constraints = r.constraints := by
  induction ops with
  | nil => intro r; rfl
  | cons hd tl ih =>
    intro r
    rw [List.foldl_cons, ih]
    cases hd <;> rfl

/-! ## Claim theorems -/

/-- C3: every `R1CS` built only through `R1CS::new`, `add_variable` and
`add_constraint` — the only constructors `Circuit::generate_proof` uses — has
an empty `constraints` vector, so `verify_witness` returns `true` for every
witness whatsoever, including an empty or arbitrarily tampered one
(`add_constraint` only updates the QAP and never appends a `Constraint`). -/
theorem constraints_stay_empty_and_verify_always_true (ops : List BuildOp)
    (w : List FieldElement) :
    (buildR1CS ops).constraints = [] ∧ (buildR1CS ops).verify_witness w = some true := by
  have h : (buildR1CS ops).constraints = [] := buildR1CS_constraints_eq ops R1CS.new
  refine ⟨h, ?_⟩
  unfold R1CS.verify_witness
  rw [h]
  rfl

/-- C4: on a witness covering every referenced variable index,
`verify_witness` evaluates each stored constraint's left, right and output
linear combinations against the witness (indexing by each referenced
variable's stored `index`), returns `false` exactly when some stored
constraint's three evaluations are not pairwise equal, and returns `true`
exactly when every stored constraint's three evaluations are pairwise equal. -/
theorem verify_witness_pairwise_equal_iff (r : R1CS) (w : List FieldElement)
    (h : ∀ c ∈ r.constraints, R1CS.sidesInRange c w) :
    (r.verify_witness w = some true ↔
      ∀ c ∈ r.constraints,
        R1CS.evalSide c.left w = R1CS.evalSide c.right w ∧
        R1CS.evalSide c.right w = R1CS.evalSide c.output w ∧
        R1CS.evalSide c.left w = R1CS.evalSide c.output w) ∧
    (r.verify_witness w = some false ↔
      ∃ c ∈ r.constraints,
        ¬ (R1CS.evalSide c.left w = R1CS.evalSide c.right w ∧
           R1CS.evalSide c.right w = R1CS.evalSide c.output w)) := by
  have hloop := R1CS.verifyLoop_eq_all w r.constraints h
  unfold R1CS.verify_witness
  rw [hloop]
  constructor
  · rw [Option.some_inj, List.all_eq_true]
    constructor
    · intro hall c hc
      have := of_decide_eq_true (hall c hc)
      exact ⟨this.1, this.2, this.1.trans this.2⟩
    · intro hall c hc
      exact decide_eq_true ⟨(hall c hc).1, (hall c hc).2.1⟩
  · rw [Option.some_inj, ← Bool.not_eq_true, List.all_eq_true]
    constructor
    · intro hnall
      rcases not_forall.mp hnall with ⟨c, hc⟩
      rcases Classical.not_imp.mp hc with ⟨hmem, hnchk⟩
      exact ⟨c, hmem, fun hcon => hnchk (decide_eq_true hcon)⟩
    · rintro ⟨c, hmem, hviol⟩ hall
      exact hviol (of_decide_eq_true (hall c hmem))

/-- Witness for C4: a concrete in-range instantiation — the three sides of
`exampleR1CS`'s constraint all evaluate to 5 under `exampleWitness`, so
`verify_witness` returns `true`. -/
theorem verify_witness_pairwise_equal_iff_witness :
    exampleR1CS.verify_witness exampleWitness = some true :=
  ((verify_witness_pairwise_equal_iff exampleR1CS exampleWitness (by decide)).1).mpr
    (by decide)

/-- C6: whenever the assignment covers all referenced indices, `QAP::evaluate`
returns `left_eval * right_eval - output_eval` over the three
linear-combination evaluations, and that result is zero iff the assignment
satisfies `left_eval * right_eval = output_eval`. -/
theorem qap_evaluate_residual (q : QAP) (a : List FieldElement)
    (hl : ∀ t ∈ q.left.coefficients, t.1 < a.length)
    (hr : ∀ t ∈ q.right.coefficients, t.1 < a.length)
    (ho : ∀ t ∈ q.output.coefficients, t.1 < a.length) :
    ∃ left_eval right_eval output_eval,
      q.left.evaluate a = some left_eval ∧
      q.right.evaluate a = some right_eval ∧
      q.output.evaluate a = some output_eval ∧
      q.evaluate a = some (left_eval * right_eval - output_eval) ∧
      (q.evaluate a = some 0 ↔ left_eval * right_eval = output_eval) := by
  obtain ⟨lv, hlv⟩ := Polynomial.evaluate_isSome q.left a hl
  obtain ⟨rv, hrv⟩ := Polynomial.evaluate_isSome q.right a hr
  obtain ⟨ov, hov⟩ := Polynomial.evaluate_isSome q.output a ho
  have heval : q.evaluate a = some (lv * rv - ov) := by
    unfold QAP.evaluate
    rw [hlv, hrv, hov]
    rfl
  refine ⟨lv, rv, ov, hlv, hrv, hov, heval, ?_⟩
  rw [heval, Option.some_inj, sub_eq_zero]

/-- Witness for C6: `exampleQAP` under `exampleAssignment` — all referenced
indices are covered, and the residual `left * right - output` is computed. -/
theorem qap_evaluate_residual_witness :
    ∃ left_eval right_eval output_eval,
      exampleQAP.left.evaluate exampleAssignment = some left_eval ∧
      exampleQAP.right.evaluate exampleAssignment = some right_eval ∧
      exampleQAP.output.evaluate exampleAssignment = some output_eval ∧
      exampleQAP.evaluate exampleAssignment = some (left_eval * right_eval - output_eval) ∧
      (exampleQAP.evaluate exampleAssignment = some 0 ↔
        left_eval * right_eval = output_eval) :=
  qap_evaluate_residual exampleQAP exampleAssignment (by decide) (by decide) (by decide)

/-- C8: `Polynomial::evaluate` fails (Rust index panic, embedded as `none`)
exactly when the assignment lacks an entry for some referenced index — it
never treats a missing entry as zero — and on an assignment covering all
referenced indices it returns the field sum of `coefficient_i * assignment[i]`
over all indices present. -/
theorem evaluate_fails_on_missing_entry (p : Polynomial) (a : List FieldElement) :
    (p.evaluate a = none ↔ ∃ t ∈ p.coefficients, a.length ≤ t.1) ∧
    ((∀ t ∈ p.coefficients, t.1 < a.length) →
      p.evaluate a = some ((p.coefficients.map (fun t => t.2 * a.getD t.1 0)).sum)) :=
  ⟨Polynomial.evaluate_none_iff p a, Polynomial.evaluate_eq_sum p a⟩

/-- Witness for C8: a polynomial referencing index 5 fails against a
one-entry assignment, and an in-range polynomial evaluates to the
coefficient-weighted sum. -/
theorem evaluate_fails_on_missing_entry_witness :
    outOfRangePolynomial.evaluate exampleAssignment = none ∧
    exampleQAP.left.evaluate exampleAssignment
      = some ((exampleQAP.left.coefficients.map
          (fun t => t.2 * exampleAssignment.getD t.1 0)).sum) :=
  ⟨(evaluate_fails_on_missing_entry outOfRangePolynomial exampleAssignment).1.mpr
      (by decide),
   (evaluate_fails_on_missing_entry exampleQAP.left exampleAssignment).2 (by decide)⟩

/-! ## Helper lemmas: `generate_proof` / `verify_proof` error paths -/

namespace Circuit

theorem getVar_error_eq (r : R1CS) (i : Nat) (e : CircuitError)
    (h : getVar r i = .error e) : e = .invalidIndex := by
  unfold getVar at h
  cases hget : r.«variables».get? i <;> rw [hget] at h
  · have h2 : (Except.error CircuitError.invalidIndex : Except CircuitError Variable)
        = .error e := h
    injection h2 with h3
    exact h3.symm
  · exact Except.noConfusion h

theorem bindGetVar3_error_eq (r : R1CS) (a b o : Nat)
    (k : Variable → Variable → Variable → R1CS) (e : CircuitError)
    (h : (do
        let va ← getVar r a
        let vb ← getVar r b
        let vo ← getVar r o
        pure (k va vb vo) : Except CircuitError R1CS) = .error e) :
    e = .invalidIndex := by
  cases h1 : getVar r a with
  | error e1 =>
    rw [h1] at h
    have h2 : (Except.error e1 : Except CircuitError R1CS) = .error e := h
    injection h2 with h3
    exact h3 ▸ getVar_error_eq r a e1 h1
  | ok va =>
    rw [h1] at h
    replace h : (do
        let vb ← getVar r b
        let vo ← getVar r o
        pure (k va vb vo) : Except CircuitError R1CS) = .error e := h
    cases h2 : getVar r b with
    | error e2 =>
      rw [h2] at h
      have h3 : (Except.error e2 : Except CircuitError R1CS) = .error e := h
      injection h3 with h4
      exact h4 ▸ getVar_error_eq r b e2 h2
    | ok vb =>
      rw [h2] at h
      replace h : (do
          let vo ← getVar r o
          pure (k va vb vo) : Except CircuitError R1CS) = .error e := h
      cases h3 : getVar r o with
      | error e3 =>
        rw [h3] at h
        have h4 : (Except.error e3 : Except CircuitError R1CS) = .error e := h
        injection h4 with h5
        exact h5 ▸ getVar_error_eq r o e3 h3
      | ok vo =>
        rw [h3] at h
        exact Except.noConfusion h

theorem lowerGate_error_eq (m : Int) (r : R1CS) (g : Gate) (e : CircuitError)
    (h : lowerGate m r g = .error e) : e = .invalidIndex := by
  cases g with
  | Add a b o =>
    exact bindGetVar3_error_eq r a b o
      (fun va vb vo => r.add_constraint [(va.index, FieldElement.new 1)]
        [(vb.index, FieldElement.new 1)] [(vo.index, FieldElement.new 1)] m) e h
  | Mul a b o =>
    exact bindGetVar3_error_eq r a b o
      (fun va vb vo => r.add_constraint [(va.index, FieldElement.new 1)]
        [(vb.index, FieldElement.new 1)] [(vo.index, FieldElement.new 1)] m) e h

theorem gatesFoldlM_ne_empty (m : Int) :
    ∀ (gs : List Gate) (r : R1CS),
      gs.foldlM (lowerGate m) r ≠ Except.error CircuitError.emptyCircuit := by
  intro gs
  induction gs with
  | nil =>
    intro r h
    exact Except.noConfusion h
  | cons g tl ih =>
    intro r h
    rw [List.foldlM_cons] at h
    cases h1 : lowerGate m r g with
    | error e =>
      rw [h1] at h
      have h2 : (Except.error e : Except CircuitError R1CS) = .error .emptyCircuit := h
      injection h2 with h3
      rw [lowerGate_error_eq m r g e h1] at h3
      exact CircuitError.noConfusion h3
    | ok r2 =>
      rw [h1] at h
      exact ih r2 h

theorem lower_error_empty_iff (c : Circuit) :
    c.lower = .error .emptyCircuit ↔ c.inputs = [] := by
  unfold lower
  by_cases h : c.inputs = []
  · rw [if_pos h]
    exact iff_of_true rfl h
  · rw [if_neg h]
    exact iff_of_false (gatesFoldlM_ne_empty c.modulus c.gates _) h

theorem generate_proof_error_iff (c : Circuit) (proof_file : String) (fs : FS)
    (e : CircuitError) :
    c.generate_proof proof_file fs = .error e ↔ c.lower = .error e := by
  unfold generate_proof
  cases hl : c.lower with
  | error e1 =>
    constructor
    · intro h
      have h2 : (Except.error e1 : Except CircuitError FS) = .error e := h
      injection h2 with h3
      exact h3 ▸ rfl
    · intro h
      injection h with h3
      exact h3 ▸ rfl
  | ok r1 =>
    constructor
    · intro h
      exact Except.noConfusion h
    · intro h
      exact Except.noConfusion h

end Circuit

/-- C5: `load_from_binary` after `save_to_binary` restores a structurally
equal `R1CS`: the same variables (indices and values), the same constraints
(linear combinations and operation tags), and identical QAP coefficients. -/
theorem load_after_save_roundtrip (fs : FS) (filename : String) (x : R1CS) :
    R1CS.load_from_binary (x.save_to_binary fs filename) filename = some x := by
  unfold R1CS.save_to_binary R1CS.load_from_binary
  rw [fsRead_fsWrite]
  have h := Bin.decR1CS_enc x []
  rw [List.append_nil] at h
  simp only [Option.bind_eq_bind, Option.some_bind, h]
  rfl

/-- C7 counterexample: the claim says that writing `c1` then `c2` to the same
index through `Polynomial::add_term` leaves the accumulated sum `c1 + c2`,
never just the last-written `c2` — but `add_term` uses `HashMap::insert`,
so after writing 1 then 2 at index 0 the stored coefficient is 2, not 1 + 2 = 3. -/
theorem add_term_overwrites_counterexample :
    ¬ (((Polynomial.new.add_term 0 1).add_term 0 2).coeff 0 = 1 + 2) := by decide

/-- C7 amended: `Polynomial::add_term` replaces — after writing `c1` then `c2`
at one index the stored coefficient is exactly the last-written `c2`;
accumulation by field addition (into an existing entry, zero-initializing an
absent one) is instead performed by `QAP::add_constraint`, so two
`add_constraint` contributions `c1` then `c2` at one index leave the previous
coefficient plus `c1 + c2`. -/
theorem add_term_replaces_add_constraint_accumulates (p : Polynomial) (q : QAP)
    (i : Nat) (c1 c2 : FieldElement) (m1 m2 : Int) :
    ((p.add_term i c1).add_term i c2).coeff i = c2 ∧
    ((q.add_constraint [(i, c1)] [] [] m1).add_constraint [(i, c2)] [] [] m2).left.coeff i
      = q.left.coeff i + c1 + c2 := by
  constructor
  · exact Polynomial.coeff_add_term _ i c2
  · show ((q.left.accumTerm i c1).accumTerm i c2).coeff i = q.left.coeff i + c1 + c2
    rw [Polynomial.coeff_accumTerm, Polynomial.coeff_accumTerm]

/-- C10: `generate_proof` on a circuit with no inputs fails with the
empty-circuit panic before building a constraint system or writing any file
(the `Except` result carries no file system), and on a circuit with at least
one input it never fails with that condition. -/
theorem generate_proof_requires_input (c : Circuit) (proof_file : String) (fs : FS) :
    (c.inputs = [] → c.generate_proof proof_file fs = .error .emptyCircuit) ∧
    (c.inputs ≠ [] → c.generate_proof proof_file fs ≠ .error .emptyCircuit) := by
  constructor
  · intro h
    rw [Circuit.generate_proof_error_iff]
    exact (Circuit.lower_error_empty_iff c).mpr h
  · intro h hcon
    exact h ((Circuit.lower_error_empty_iff c).mp
      ((Circuit.generate_proof_error_iff c proof_file fs _).mp hcon))

/-- Witness for C10: the fresh empty circuit fails with `emptyCircuit`;
the addition demonstration circuit does not. -/
theorem generate_proof_requires_input_witness :
    Circuit.new.generate_proof unusedProofPath [] = .error .emptyCircuit ∧
    additionCircuit.generate_proof additionProofPath [] ≠ .error .emptyCircuit :=
  ⟨(generate_proof_requires_input Circuit.new unusedProofPath []).1 rfl,
   (generate_proof_requires_input additionCircuit additionProofPath []).2
     (by decide)⟩

/-- C9: `verify_proof` fails (Rust `expect` panic, embedded as `none`) when
the proof file is missing or malformed — never a silent `false` — and any
Boolean it does return (in particular `false`) is exactly `verify_witness`
of the successfully loaded witness against the successfully loaded
constraint system. -/
theorem verify_proof_never_silent_false (c : Circuit) (proof_file : String) (fs : FS) :
    (fsRead fs proof_file = none → c.verify_proof proof_file fs = none) ∧
    (∀ bytes, fsRead fs proof_file = some bytes → Bin.decProof bytes = none →
      c.verify_proof proof_file fs = none) ∧
    (∀ b : Bool, c.verify_proof proof_file fs = some b →
      ∃ pr : Proof × List Nat, (fsRead fs proof_file).bind Bin.decProof = some pr ∧
        ∃ r1cs : R1CS, R1CS.load_from_binary fs r1csFilePath = some r1cs ∧
          r1cs.verify_witness (pr.1.witness.map FieldElement.new) = some b) := by
  refine ⟨?_, ?_, ?_⟩
  · intro h
    unfold Circuit.verify_proof
    rw [h]
    rfl
  · intro bytes h1 h2
    unfold Circuit.verify_proof
    rw [h1]
    simp only [Option.bind_eq_bind, Option.some_bind, h2]
    rfl
  · intro b h
    unfold Circuit.verify_proof at h
    cases hread : fsRead fs proof_file with
    | none => rw [hread] at h; exact Option.noConfusion h
    | some bytes =>
      rw [hread] at h
      simp only [Option.bind_eq_bind, Option.some_bind] at h
      cases hdec : Bin.decProof bytes with
      | none => rw [hdec] at h; exact Option.noConfusion h
      | some pr =>
        rw [hdec] at h
        obtain ⟨proof, rest⟩ := pr
        simp only [Option.some_bind] at h
        cases hload : R1CS.load_from_binary fs r1csFilePath with
        | none => rw [hload] at h; exact Option.noConfusion h
        | some r1cs =>
          rw [hload] at h
          simp only [Option.some_bind] at h
          exact ⟨(proof, rest), by simp [hdec], r1cs, rfl, h⟩

/-- Witness for C9: on an empty file system the proof file is missing and
`verify_proof` fails with `none` rather than returning `false`. -/
theorem verify_proof_never_silent_false_witness :
    Circuit.new.verify_proof additionProofPath [] = none :=
  (verify_proof_never_silent_false Circuit.new additionProofPath []).1 rfl

/-- C1 at the failing input (code bug): replaying Scenario C — the addition
circuit's `generate_proof` followed by overwriting the persisted proof file
with a witness whose sum entry is altered from 30 to 31 — `verify_proof`
still returns `true`, because `R1CS::add_constraint` never stores a
`Constraint`, so the loaded system's constraint loop checks nothing.  The
claim (and the spec's tampering requirement) says this must be `false`. -/
theorem tampered_witness_verify_returns_true :
    (additionCircuit.generate_proof additionProofPath []).map
        (fun fs => additionCircuit.verify_proof additionProofPath
          (fsWrite fs additionProofPath (Bin.encProof tamperedProof)))
      = .ok (some true) := rfl

/-- C2 at the failing input (code bug): the addition circuit has one gate,
and lowering it calls `add_constraint` once, but the resulting constraint
system stores zero `Constraint` records — not one per gate — because
`R1CS::add_constraint` only updates the QAP accumulators. -/
theorem gate_lowered_without_stored_constraint :
    additionCircuit.gates.length = 1 ∧
    (additionCircuit.lower).map (fun r => r.constraints.length) = .ok 0 :=
  ⟨rfl, rfl⟩

end ZkMini
